import Mathlib

/-! Verification of the `Multipart` coordinator of `@adonisjs/bodyparser`
(`src/Multipart/index.ts`), as a shallow embedding.

The coordinator is single-threaded (cooperative scheduling): every mutation
of its state happens inside its own decoder-event callbacks.  We embed it as
a state machine driven by a list of decoder events.  A `part` event runs the
source's `handlePart` body to completion (one admissible scheduling of the
`async` handler) followed by the post-`await` completion check; `field`,
`error` and `close` events run the corresponding listeners.  The decoder
(the `multiparty` form) is an external collaborator: its internal `flushing`
backlog counter, observed by `isClosed`, is carried on the events that
trigger an observation, and the per-part chunk sequence fed to the progress
callback, the handler's outcome, and the tracker's `getFile()` result are
carried on the `part` event.
-/

namespace Bodyparser

/-- A JavaScript error value.  `@poppinss/utils` `Exception`s carry a
`status` and `code`; plain decoder `Error`s carry only a message. -/
structure Exn where
  message : String
  status : Option Nat
  code : Option String
deriving Repr, DecidableEq

/-- `new Exception('request entity too large', 413, 'E_REQUEST_ENTITY_TOO_LARGE')`
produced by `validateProcessedBytes`. -/
def entityTooLarge : Exn :=
  ⟨"request entity too large", some 413, some "E_REQUEST_ENTITY_TOO_LARGE"⟩

/-- `new Exception('Max fields limit exceeded', 413, 'E_REQUEST_ENTITY_TOO_LARGE')`
produced by the form error listener. -/
def maxFieldsExceeded : Exn :=
  ⟨"Max fields limit exceeded", some 413, some "E_REQUEST_ENTITY_TOO_LARGE"⟩

/-- `new Exception('multipart stream has already been consumed', 500,
'E_RUNTIME_EXCEPTION')` produced by a second `process` call. -/
def alreadyConsumedExn : Exn :=
  ⟨"multipart stream has already been consumed", some 500, some "E_RUNTIME_EXCEPTION"⟩

/-- A plain decoder error (message only, no status/code). -/
def decoderError (msg : String) : Exn := ⟨msg, none, none⟩

/-- Modelled from the spec: the decoder collaborator (the `multiparty`
package, not under `src/`) is constructed with a maximum-field-count option
and reports exceeding that cap `n` through its `error` notification with the
message `maxFields <n> exceeded.`. -/
def maxFieldsErrorMessage (n : Nat) : String :=
  "maxFields " ++ toString n ++ " exceeded."

/-- Modelled from the spec: the Field/File Accumulator (`FormFields`, not
under `src/`) is "an insertion-ordered multi-value mapping from field name
to value(s)"; `add(key, value)` "appends `value` to the ordered sequence
stored under `key`, creating the sequence if absent", and keys follow
first-insertion order. -/
structure FormFields (α : Type) where
  entries : List (String × List α)
deriving Repr, DecidableEq

/-- Append `value` under `key`, creating the key at the end on first use. -/
def addEntry {α : Type} (key : String) (value : α) :
    List (String × List α) → List (String × List α)
  | [] => [(key, [value])]
  | (k, vs) :: rest =>
    if k = key then (k, vs ++ [value]) :: rest
    else (k, vs) :: addEntry key value rest

def FormFields.add {α : Type} (ff : FormFields α) (key : String) (value : α) :
    FormFields α :=
  ⟨addEntry key value ff.entries⟩

/-- Result of `get()` for one key: a scalar for a single accumulated value,
an ordered sequence for several. -/
inductive FieldValue (α : Type) where
  | scalar (a : α)
  | many (as : List α)
deriving Repr, DecidableEq

def entryResult {α : Type} : List α → FieldValue α
  | [a] => .scalar a
  | as => .many as

/-- Modelled from the spec: `get()` "returns, for each key with exactly one
accumulated value, that scalar value directly; for keys with multiple
values, an ordered sequence of all values", keys in first-insertion order. -/
def FormFields.get {α : Type} (ff : FormFields α) :
    List (String × FieldValue α) :=
  ff.entries.map (fun e => (e.1, entryResult e.2))

/-- The ordered values accumulated under one key (empty if absent). -/
def FormFields.valuesOf {α : Type} (ff : FormFields α) (key : String) : List α :=
  (List.lookup key ff.entries).getD []

/-- After `[`, JavaScript's regex `\[\d*\]` matches zero or more digits then
`]`; returns the remainder past the match, or `none` when the bracket group
does not match here. -/
def matchIndexSuffix : List Char → Option (List Char)
  | [] => none
  | c :: rest =>
    if c = ']' then some rest
    else if c.isDigit then matchIndexSuffix rest
    else none

/-- Leftmost-match removal of one `[\d*]` group, as JavaScript's
`String.replace` with the non-global regex `/\[\d*\]/` does. -/
def stripFirstIndex : List Char → List Char
  | [] => []
  | c :: rest =>
    if c = '[' then
      match matchIndexSuffix rest with
      | some rest2 => rest2
      | none => c :: stripFirstIndex rest
    else c :: stripFirstIndex rest

/-- `getHandlerName`: `name.replace(/\[\d*\]/, '')` — removes the first
occurrence of a bracketed digit group anywhere in the name. -/
def getHandlerName (name : String) : String :=
  ⟨stripFirstIndex name.data⟩

/-- The spec's words for §4.1 normalization (for refinement comparison with
`getHandlerName`): "normalizes `partName` by stripping any trailing
array-index suffix". -/
def stripTrailingAux : List Char → Option (List Char)
  | [] => none
  | c :: rest =>
    if c = '[' then some rest
    else if c.isDigit then stripTrailingAux rest
    else none

/-- The spec's normalization: strip a trailing `[digits]` suffix, leave any
other name unchanged. -/
def stripTrailingIndexSuffix (name : String) : String :=
  match name.data.reverse with
  | ']' :: rest =>
    match stripTrailingAux rest with
    | some rem => ⟨rem.reverse⟩
    | none => name
  | _ => name

/-- `this.handlers[name] = { handler, options }`: set or overwrite the
binding (handlers are identified by an id). -/
def setHandler (name : String) (hid : Nat) :
    List (String × Nat) → List (String × Nat)
  | [] => [(name, hid)]
  | (k, v) :: rest =>
    if k = name then (name, hid) :: rest
    else (k, v) :: setHandler name hid rest

/-- `this.handlers[name] || this.handlers['*']` on the normalized name. -/
def dispatchTarget (handlers : List (String × Nat)) (partName : String) :
    Option Nat :=
  (List.lookup (getHandlerName partName) handlers).orElse
    (fun _ => List.lookup "*" handlers)

/-- The byte ceiling of the `process` configuration: either a number or a
size string; a string carries the byte count the external `bytes` parser
returns for it (`none` when the parser yields `null`). -/
inductive LimitSpec where
  | str (parsed : Option Nat)
  | num (n : Nat)
deriving Repr, DecidableEq

/-- `process` configuration: `{ maxFields, limit }`, each optional. -/
structure Config where
  maxFields : Option Nat
  limit : Option LimitSpec
deriving Repr, DecidableEq

/-- `Object.assign(this.config, config)`: keys present in the call-time
config overwrite the instance config. -/
def mergeConfig (base : Config) : Option Config → Config
  | none => base
  | some c =>
    { maxFields := c.maxFields.orElse (fun _ => base.maxFields),
      limit := c.limit.orElse (fun _ => base.limit) }

/-- `typeof limit === 'string' ? bytes(limit) : limit` — the resolved
`upperLimit` (`none` models both `undefined` and a `null` parse result). -/
def resolveLimit : Option LimitSpec → Option Nat
  | none => none
  | some (.str parsed) => parsed
  | some (.num n) => some n

/-- Settlement of the outer promise. -/
inductive Settle where
  | resolved
  | rejected (e : Exn)
deriving Repr, DecidableEq

/-- What the per-part `PartHandler` tracker has been told (interface of the
Part Progress Tracker collaborator, not under `src/`). -/
structure Tracker where
  progress : List Nat
  successes : List String
  errors : List Exn
deriving Repr, DecidableEq

/-- One dispatched part, as observed from the coordinator: the id of the
handler that was invoked, the tracker reports, and the errors the
coordinator emitted on the part's own stream. -/
structure PartRecord where
  handlerId : Nat
  tracker : Tracker
  streamErrors : List Exn
deriving Repr, DecidableEq

/-- A file record pulled out of the tracker by `getFile()` (interface
only: validity, names, sizes etc. live in the collaborator). -/
structure FileRecord where
  fieldName : String
  id : Nat
deriving Repr, DecidableEq

/-- The handler's settlement for one part: a returned value (`none` models a
falsy return, for which `if (response)` skips `reportSuccess`) or a
thrown/rejected error. -/
inductive HandlerOutcome where
  | success (response : Option String)
  | failure (e : Exn)
deriving Repr, DecidableEq

/-- One `part` notification: the part's name (`""` models a missing name),
the lengths of the chunks the handler feeds through the progress callback,
the handler's outcome, the tracker's `getFile()` result, and the decoder's
`flushing` backlog value at the post-handling completion check. -/
structure PartEvent where
  name : String
  chunks : List Nat
  outcome : HandlerOutcome
  tfile : Option FileRecord
  flushingAtCheck : Int
deriving Repr, DecidableEq

/-- A decoder notification driving the coordinator. `field` carries an
optional error thrown by the accumulator's `add` (caught by the listener's
`try/catch`); `close` carries the `flushing` value at its check. -/
inductive FormEvent where
  | part (p : PartEvent)
  | field (key : String) (value : String) (addError : Option Exn)
  | formError (msg : String)
  | close (flushingAtCheck : Int)
deriving Repr, DecidableEq

/-- The whole observable state of one `Multipart` instance together with its
outer promise and the request context it publishes to. -/
structure MState where
  handlers : List (String × Nat)
  fields : FormFields String
  files : FormFields FileRecord
  pendingHandlers : Int
  upperLimit : Option Nat
  processedBytes : Nat
  consumed : Bool
  config : Config
  formConstructions : Nat
  settled : Option Settle
  cleanupCount : Nat
  publishedFields : Option (List (String × FieldValue String))
  publishedFiles : Option (List (String × FieldValue FileRecord))
  partRecords : List PartRecord
deriving Repr, DecidableEq

/-- The state built by the constructor: nothing consumed, no form yet. -/
def initialState (config : Config) : MState :=
  { handlers := [], fields := ⟨[]⟩, files := ⟨[]⟩, pendingHandlers := 0,
    upperLimit := none, processedBytes := 0, consumed := false,
    config := config, formConstructions := 0, settled := none,
    cleanupCount := 0, publishedFields := none, publishedFiles := none,
    partRecords := [] }

/-- `onFile(name, options, handler)`: store or replace the binding. -/
def onFile (s : MState) (name : String) (hid : Nat) : MState :=
  { s with handlers := setHandler name hid s.handlers }

/-- `resolve()`: a JavaScript promise settles at most once; later calls are
no-ops. -/
def resolveP (s : MState) : MState :=
  if s.settled = none then { s with settled := some .resolved } else s

/-- `reject(e)`: likewise one-shot. -/
def rejectP (s : MState) (e : Exn) : MState :=
  if s.settled = none then { s with settled := some (.rejected e) } else s

/-- The `form.on('error', ...)` listener: translate the exact message
`'maxFields 1 exceeded.'` into the dedicated 413 failure, reject verbatim
otherwise. -/
def onFormError (s : MState) (e : Exn) : MState :=
  if e.message = "maxFields 1 exceeded." then rejectP s maxFieldsExceeded
  else rejectP s e

/-- `abort(error)` after the form exists: `this.form.emit('error', error)`,
which synchronously runs the error listener. -/
def abortOnForm (s : MState) (e : Exn) : MState := onFormError s e

/-- The public `abort(error)`.  Before `process` has run, `this.form` is
still `undefined`, so `this.form.emit` throws a `TypeError` (modelled as
`Except.error ()`) and nothing in the state changes. -/
def abortCall (s : MState) (e : Exn) : Except Unit MState :=
  if s.formConstructions = 0 then Except.error ()
  else Except.ok (abortOnForm s e)

/-- `validateProcessedBytes(chunkLength)`: with a falsy `upperLimit`
(`undefined`, `null` or `0`) return early without touching the counter;
otherwise add the chunk length and report the 413 failure when the counter
exceeds the limit. -/
def validateProcessedBytes (s : MState) (chunkLength : Nat) :
    MState × Option Exn :=
  match s.upperLimit with
  | none => (s, none)
  | some limit =>
    if limit = 0 then (s, none)
    else
      let s2 := { s with processedBytes := s.processedBytes + chunkLength }
      if s2.processedBytes > limit then (s2, some entityTooLarge)
      else (s2, none)

/-- The body of the progress callback for one chunk: run the guard; on
failure emit the error on the part's stream and abort the whole form; in
either case report the chunk to the tracker. -/
def processChunk (s : MState) (pr : PartRecord) (len : Nat) :
    MState × PartRecord :=
  match validateProcessedBytes s len with
  | (s2, some e) =>
    (abortOnForm s2 e,
     { pr with
       streamErrors := pr.streamErrors ++ [e],
       tracker := { pr.tracker with progress := pr.tracker.progress ++ [len] } })
  | (s2, none) =>
    (s2,
     { pr with
       tracker := { pr.tracker with progress := pr.tracker.progress ++ [len] } })

/-- Feed every chunk of the part through the progress callback. -/
def processChunks (s : MState) (pr : PartRecord) :
    List Nat → MState × PartRecord
  | [] => (s, pr)
  | len :: rest =>
    processChunks (processChunk s pr len).1 (processChunk s pr len).2 rest

/-- The handler's settlement report: `if (response) reportSuccess(response)`
on a normal return, `reportError(error)` in the `catch`. -/
def reportOutcome (pr : PartRecord) : HandlerOutcome → PartRecord
  | .success none => pr
  | .success (some r) =>
    { pr with tracker :=
      { pr.tracker with successes := pr.tracker.successes ++ [r] } }
  | .failure e =>
    { pr with tracker :=
      { pr.tracker with errors := pr.tracker.errors ++ [e] } }

/-- After the handler settles: pull `getFile()` from the tracker, append it
(when present) into the file accumulator, decrement the pending counter,
and record the dispatched part. -/
def finishPart (s2 : MState) (pr2 : PartRecord) (tfile : Option FileRecord) :
    MState :=
  match tfile with
  | some f =>
    { s2 with files := s2.files.add f.fieldName f,
              pendingHandlers := s2.pendingHandlers - 1,
              partRecords := s2.partRecords ++ [pr2] }
  | none =>
    { s2 with pendingHandlers := s2.pendingHandlers - 1,
              partRecords := s2.partRecords ++ [pr2] }

/-- `handlePart(part)`: skip empty names and unhandled parts (resuming the
stream changes no coordinator state); otherwise bump the pending counter,
build a tracker, run the handler (chunks, then success/failure report),
pull `getFile()` into the file accumulator, and decrement the counter. -/
def handlePart (s : MState) (p : PartEvent) : MState :=
  if p.name = "" then s
  else
    match dispatchTarget s.handlers p.name with
    | none => s
    | some hid =>
      match processChunks { s with pendingHandlers := s.pendingHandlers + 1 }
          ⟨hid, ⟨[], [], []⟩, []⟩ p.chunks with
      | (s2, pr1) => finishPart s2 (reportOutcome pr1 p.outcome) p.tfile

/-- `handleField(key, value)` wrapped in the field listener's `try/catch`:
empty keys are ignored; otherwise the guard runs on the value's length, a
guard failure aborts instead of recording, a throwing `add` is caught and
aborts the same way, and otherwise the value is appended under its key. -/
def handleFieldStep (s : MState) (key value : String) (addError : Option Exn) :
    MState :=
  if key = "" then s
  else
    match validateProcessedBytes s value.length, addError with
    | (s2, some e), _ => abortOnForm s2 e
    | (s2, none), some ex => abortOnForm s2 ex
    | (s2, none), none => { s2 with fields := s2.fields.add key value }

/-- `isClosed()`: `this.form['flushing'] <= 0 && this.pendingHandlers <= 0`,
with the decoder's `flushing` value observed at the trigger. -/
def isClosedAt (flushing : Int) (s : MState) : Bool :=
  flushing ≤ 0 && s.pendingHandlers ≤ 0

/-- `cleanup()`: publish the accumulated file and field mappings to the
request context (`__raw_files` and `setInitialBody`). -/
def cleanup (s : MState) : MState :=
  { s with cleanupCount := s.cleanupCount + 1,
           publishedFiles := some s.files.get,
           publishedFields := some s.fields.get }

/-- The completion check shared by the `part` and `close` listeners: when
`isClosed()`, run `cleanup()` and then `resolve()`. -/
def completionCheck (s : MState) (flushing : Int) : MState :=
  if isClosedAt flushing s then resolveP (cleanup s) else s

/-- One decoder notification. -/
def step (s : MState) : FormEvent → MState
  | .part p => completionCheck (handlePart s p) p.flushingAtCheck
  | .field k v addErr => handleFieldStep s k v addErr
  | .formError msg => onFormError s (decoderError msg)
  | .close fl => completionCheck s fl

/-- A whole decoder run. -/
def run (s : MState) (events : List FormEvent) : MState :=
  events.foldl step s

/-- The value of the promise a `process` call returns: rejected on the spot
for a consumed instance, otherwise driven by the decoder run (its
settlement is the state's `settled` slot). -/
inductive ProcessResult where
  | alreadyConsumed (e : Exn)
  | started
deriving Repr, DecidableEq

/-- `process(config)`: a consumed instance rejects immediately (no merge, no
form); otherwise latch the flag, merge the configuration, resolve the byte
ceiling, construct the form and run the decoder events. -/
def processCall (s : MState) (config : Option Config)
    (events : List FormEvent) : MState × ProcessResult :=
  if s.consumed then (s, .alreadyConsumed alreadyConsumedExn)
  else
    let cfg := mergeConfig s.config config
    let s1 := { s with consumed := true, config := cfg,
                       upperLimit := resolveLimit cfg.limit,
                       formConstructions := s.formConstructions + 1 }
    (run s1 events, .started)

/-- The bytes of one decoder notification that reach
`validateProcessedBytes`: chunk lengths of a dispatched part, the value
length of a field with a nonempty key, nothing otherwise. -/
def eventBytes (handlers : List (String × Nat)) : FormEvent → Nat
  | .part p =>
    if p.name = "" then 0
    else
      match dispatchTarget handlers p.name with
      | none => 0
      | some _ => p.chunks.sum
  | .field k v _ => if k = "" then 0 else v.length
  | .formError _ => 0
  | .close _ => 0

/-- Total guarded bytes of a decoder run. -/
def totalBytes (handlers : List (String × Nat)) (events : List FormEvent) :
    Nat :=
  (events.map (eventBytes handlers)).sum

/-- The fields of the coordinator state that no decoder notification can
change: the registry, the consumed latch, the resolved byte ceiling, and
the number of constructed forms. -/
def core (s : MState) : Bool × Option Nat × List (String × Nat) × Nat :=
  (s.consumed, s.upperLimit, s.handlers, s.formConstructions)

/-- The byte ceiling puts up no resistance to `total` more bytes: it is
absent, zero (falsy), or roomy enough. -/
def guardSafe (s : MState) (total : Nat) : Prop :=
  match s.upperLimit with
  | none => True
  | some l => l = 0 ∨ s.processedBytes + total ≤ l

/-! Accumulator lemmas -/

theorem lookup_addEntry_self {α : Type} (key : String) (value : α)
    (l : List (String × List α)) :
    List.lookup key (addEntry key value l) =
      some ((List.lookup key l).getD [] ++ [value]) := by
  induction l with
  | nil => simp [addEntry]
  | cons hd tl ih =>
    obtain ⟨k, vs⟩ := hd
    by_cases hk : k = key
    · subst hk
      simp [addEntry, List.lookup]
    · have hbeq : (key == k) = false :=
        beq_eq_false_iff_ne.mpr (fun h => hk h.symm)
      simp [addEntry, hk, List.lookup, hbeq, ih]

theorem valuesOf_add_self {α : Type} (ff : FormFields α) (key : String)
    (value : α) :
    (ff.add key value).valuesOf key = ff.valuesOf key ++ [value] := by
  simp [FormFields.add, FormFields.valuesOf, lookup_addEntry_self]

theorem lookup_addEntry_other {α : Type} (key other : String) (value : α)
    (l : List (String × List α)) (h : other ≠ key) :
    List.lookup other (addEntry key value l) = List.lookup other l := by
  have hbeq : (other == key) = false := beq_eq_false_iff_ne.mpr h
  induction l with
  | nil => simp [addEntry, List.lookup, hbeq]
  | cons hd tl ih =>
    obtain ⟨k, vs⟩ := hd
    by_cases hk : k = key
    · subst hk
      simp [addEntry, List.lookup, hbeq]
    · simp [addEntry, hk, List.lookup, ih]

theorem valuesOf_add_other {α : Type} (ff : FormFields α) (key other : String)
    (value : α) (h : other ≠ key) :
    (ff.add key value).valuesOf other = ff.valuesOf other := by
  simp [FormFields.add, FormFields.valuesOf, lookup_addEntry_other _ _ _ _ h]

/-! Invariant lemmas: fields a decoder notification never changes -/

theorem core_consumed {s t : MState} (h : core t = core s) :
    t.consumed = s.consumed := by
  simpa [core] using congrArg Prod.fst h

theorem core_upperLimit {s t : MState} (h : core t = core s) :
    t.upperLimit = s.upperLimit := by
  simpa [core] using congrArg (fun x => x.2.1) h

theorem core_handlers {s t : MState} (h : core t = core s) :
    t.handlers = s.handlers := by
  simpa [core] using congrArg (fun x => x.2.2.1) h

theorem core_formConstructions {s t : MState} (h : core t = core s) :
    t.formConstructions = s.formConstructions := by
  simpa [core] using congrArg (fun x => x.2.2.2) h

/-- `resolve()` touches only the settlement slot. -/
theorem resolveP_state (s : MState) :
    core (resolveP s) = core s ∧
    (resolveP s).processedBytes = s.processedBytes ∧
    (resolveP s).fields = s.fields ∧
    (resolveP s).files = s.files ∧
    (resolveP s).partRecords = s.partRecords ∧
    (resolveP s).pendingHandlers = s.pendingHandlers ∧
    (resolveP s).cleanupCount = s.cleanupCount := by
  unfold resolveP
  split_ifs <;> simp [core]

/-- `reject(e)` touches only the settlement slot. -/
theorem rejectP_state (s : MState) (e : Exn) :
    core (rejectP s e) = core s ∧
    (rejectP s e).processedBytes = s.processedBytes ∧
    (rejectP s e).fields = s.fields ∧
    (rejectP s e).files = s.files ∧
    (rejectP s e).partRecords = s.partRecords ∧
    (rejectP s e).pendingHandlers = s.pendingHandlers ∧
    (rejectP s e).cleanupCount = s.cleanupCount := by
  unfold rejectP
  split_ifs <;> simp [core]

/-- The form error listener touches only the settlement slot. -/
theorem onFormError_state (s : MState) (e : Exn) :
    core (onFormError s e) = core s ∧
    (onFormError s e).processedBytes = s.processedBytes ∧
    (onFormError s e).fields = s.fields ∧
    (onFormError s e).files = s.files ∧
    (onFormError s e).partRecords = s.partRecords ∧
    (onFormError s e).pendingHandlers = s.pendingHandlers ∧
    (onFormError s e).cleanupCount = s.cleanupCount := by
  unfold onFormError
  split_ifs <;> exact rejectP_state _ _

/-- An already settled promise stays exactly as settled: `reject` is a
no-op. -/
theorem rejectP_of_settled {s : MState} (e : Exn) (h : s.settled ≠ none) :
    rejectP s e = s := by
  unfold rejectP
  simp [h]

/-- An already settled promise stays exactly as settled: `resolve` is a
no-op. -/
theorem resolveP_of_settled {s : MState} (h : s.settled ≠ none) :
    resolveP s = s := by
  unfold resolveP
  simp [h]

theorem onFormError_of_settled {s : MState} (e : Exn) (h : s.settled ≠ none) :
    onFormError s e = s := by
  unfold onFormError
  split_ifs <;> exact rejectP_of_settled _ h

theorem rejectP_of_unsettled {s : MState} (e : Exn) (h : s.settled = none) :
    rejectP s e = { s with settled := some (.rejected e) } := by
  unfold rejectP
  simp [h]

theorem resolveP_of_unsettled {s : MState} (h : s.settled = none) :
    resolveP s = { s with settled := some .resolved } := by
  unfold resolveP
  simp [h]

/-- The guard mutates (at most) the processed-bytes counter, never
decreasing it. -/
theorem validate_state (s : MState) (n : Nat) :
    core (validateProcessedBytes s n).1 = core s ∧
    (validateProcessedBytes s n).1.settled = s.settled ∧
    (validateProcessedBytes s n).1.fields = s.fields ∧
    (validateProcessedBytes s n).1.files = s.files ∧
    (validateProcessedBytes s n).1.partRecords = s.partRecords ∧
    (validateProcessedBytes s n).1.pendingHandlers = s.pendingHandlers ∧
    (validateProcessedBytes s n).1.cleanupCount = s.cleanupCount ∧
    s.processedBytes ≤ (validateProcessedBytes s n).1.processedBytes := by
  rcases h : s.upperLimit with _ | l
  · simp [validateProcessedBytes, h, core]
  · by_cases h0 : l = 0
    · simp [validateProcessedBytes, h, h0, core]
    · by_cases hgt : s.processedBytes + n > l
      · simp [validateProcessedBytes, h, h0, hgt, core, Nat.le_add_right]
      · simp [validateProcessedBytes, h, h0, hgt, core, Nat.le_add_right]

/-- The only failure the guard ever produces is the 413 entity-too-large
exception. -/
theorem validate_snd (s : MState) (n : Nat) :
    (validateProcessedBytes s n).2 = none ∨
      (validateProcessedBytes s n).2 = some entityTooLarge := by
  rcases h : s.upperLimit with _ | l
  · simp [validateProcessedBytes, h]
  · by_cases h0 : l = 0
    · simp [validateProcessedBytes, h, h0]
    · by_cases hgt : s.processedBytes + n > l
      · simp [validateProcessedBytes, h, h0, hgt]
      · simp [validateProcessedBytes, h, h0, hgt]

/-- With a falsy ceiling (`undefined`/`null`/`0`) the guard is inert. -/
theorem validate_disabled {s : MState} (n : Nat)
    (h : s.upperLimit = none ∨ s.upperLimit = some 0) :
    validateProcessedBytes s n = (s, none) := by
  rcases h with h | h <;> simp [validateProcessedBytes, h]

/-- With a nonzero ceiling the guard always adds the increment and reports
the failure exactly when the new total exceeds the ceiling. -/
theorem validate_enabled {s : MState} {l : Nat} (n : Nat)
    (h : s.upperLimit = some l) (h0 : l ≠ 0) :
    validateProcessedBytes s n =
      ({ s with processedBytes := s.processedBytes + n },
       if s.processedBytes + n > l then some entityTooLarge else none) := by
  simp only [validateProcessedBytes, h, h0, if_neg h0]
  split_ifs <;> simp_all

/-- One chunk can change (at most) the counter and the settlement. -/
theorem processChunk_state (s : MState) (pr : PartRecord) (len : Nat) :
    core (processChunk s pr len).1 = core s ∧
    (processChunk s pr len).1.fields = s.fields ∧
    (processChunk s pr len).1.files = s.files ∧
    (processChunk s pr len).1.partRecords = s.partRecords ∧
    (processChunk s pr len).1.pendingHandlers = s.pendingHandlers ∧
    (processChunk s pr len).1.cleanupCount = s.cleanupCount ∧
    s.processedBytes ≤ (processChunk s pr len).1.processedBytes := by
  obtain ⟨hc, hst, hfd, hfl, hpr, hph, hcc, hpb⟩ := validate_state s len
  rcases hv : validateProcessedBytes s len with ⟨s2, e?⟩
  rw [hv] at hc hst hfd hfl hpr hph hcc hpb
  rcases e? with _ | e
  · simpa [processChunk, hv] using ⟨hc, hfd, hfl, hpr, hph, hcc, hpb⟩
  · obtain ⟨hc2, hpb2, hfd2, hfl2, hpr2, hph2, hcc2⟩ :=
      onFormError_state s2 e
    simp only [processChunk, hv]
    exact ⟨hc2.trans hc, hfd2.trans hfd, hfl2.trans hfl, hpr2.trans hpr,
      hph2.trans hph, hcc2.trans hcc, le_trans hpb (le_of_eq hpb2.symm)⟩

/-- What one chunk does to the part record: report the chunk to the
tracker, touch nothing else of it except (possibly) the stream errors. -/
theorem processChunk_record (s : MState) (pr : PartRecord) (len : Nat) :
    (processChunk s pr len).2.handlerId = pr.handlerId ∧
    (processChunk s pr len).2.tracker.successes = pr.tracker.successes ∧
    (processChunk s pr len).2.tracker.errors = pr.tracker.errors ∧
    (processChunk s pr len).2.tracker.progress =
      pr.tracker.progress ++ [len] := by
  rcases hv : validateProcessedBytes s len with ⟨s2, _ | e⟩ <;>
    simp [processChunk, hv]

theorem processChunks_state (ls : List Nat) (s : MState) (pr : PartRecord) :
    core (processChunks s pr ls).1 = core s ∧
    (processChunks s pr ls).1.fields = s.fields ∧
    (processChunks s pr ls).1.files = s.files ∧
    (processChunks s pr ls).1.partRecords = s.partRecords ∧
    (processChunks s pr ls).1.pendingHandlers = s.pendingHandlers ∧
    (processChunks s pr ls).1.cleanupCount = s.cleanupCount ∧
    s.processedBytes ≤ (processChunks s pr ls).1.processedBytes := by
  induction ls generalizing s pr with
  | nil => simp [processChunks]
  | cons len rest ih =>
    obtain ⟨hc, hfd, hfl, hpr, hph, hcc, hpb⟩ := processChunk_state s pr len
    obtain ⟨ic, ifd, ifl, ipr, iph, icc, ipb⟩ :=
      ih (processChunk s pr len).1 (processChunk s pr len).2
    exact ⟨ic.trans hc, ifd.trans hfd, ifl.trans hfl, ipr.trans hpr,
      iph.trans hph, icc.trans hcc, le_trans hpb ipb⟩

theorem processChunks_record (ls : List Nat) (s : MState) (pr : PartRecord) :
    (processChunks s pr ls).2.handlerId = pr.handlerId ∧
    (processChunks s pr ls).2.tracker.successes = pr.tracker.successes ∧
    (processChunks s pr ls).2.tracker.errors = pr.tracker.errors ∧
    (processChunks s pr ls).2.tracker.progress =
      pr.tracker.progress ++ ls := by
  induction ls generalizing s pr with
  | nil => simp [processChunks]
  | cons len rest ih =>
    obtain ⟨hid, hsu, her, hpg⟩ := processChunk_record s pr len
    obtain ⟨iid, isu, ier, ipg⟩ :=
      ih (processChunk s pr len).1 (processChunk s pr len).2
    refine ⟨iid.trans hid, isu.trans hsu, ier.trans her, ?_⟩
    show (processChunks (processChunk s pr len).1
      (processChunk s pr len).2 rest).2.tracker.progress = _
    rw [ipg, hpg]
    simp

/-- A settled promise stays settled through any chunk. -/
theorem processChunk_of_settled (s : MState) (pr : PartRecord) (len : Nat)
    (h : s.settled ≠ none) :
    (processChunk s pr len).1.settled = s.settled := by
  obtain ⟨_, hst, _⟩ := validate_state s len
  rcases hv : validateProcessedBytes s len with ⟨s2, e?⟩
  rw [hv] at hst
  rcases e? with _ | e
  · simpa [processChunk, hv] using hst
  · simp only [processChunk, hv]
    show (abortOnForm s2 e).settled = s.settled
    unfold abortOnForm
    rw [onFormError_of_settled e (by rw [hst]; exact h)]
    exact hst

theorem processChunks_of_settled (ls : List Nat) (s : MState)
    (pr : PartRecord) (h : s.settled ≠ none) :
    (processChunks s pr ls).1.settled = s.settled := by
  induction ls generalizing s pr with
  | nil => simp [processChunks]
  | cons len rest ih =>
    have hch := processChunk_of_settled s pr len h
    have := ih (processChunk s pr len).1 (processChunk s pr len).2
      (by rw [hch]; exact h)
    simpa [processChunks, this] using this.trans hch

/-- With a falsy ceiling, chunks change no coordinator state at all and
only report progress to the tracker. -/
theorem processChunks_disabled (ls : List Nat) {s : MState} (pr : PartRecord)
    (h : s.upperLimit = none ∨ s.upperLimit = some 0) :
    processChunks s pr ls =
      (s, { pr with tracker :=
        { pr.tracker with progress := pr.tracker.progress ++ ls } }) := by
  induction ls generalizing pr with
  | nil => simp [processChunks]
  | cons len rest ih =>
    have hch : processChunk s pr len =
        (s, { pr with tracker :=
          { pr.tracker with progress := pr.tracker.progress ++ [len] } }) := by
      simp [processChunk, validate_disabled len h]
    show processChunks (processChunk s pr len).1
      (processChunk s pr len).2 rest = _
    rw [hch]
    rw [ih]
    simp

/-- With a nonzero ceiling roomy enough for the whole part, chunks advance
the counter by their total, abort nothing, and emit no stream error. -/
theorem processChunks_within (ls : List Nat) {s : MState} {l : Nat}
    (pr : PartRecord) (h : s.upperLimit = some l) (h0 : l ≠ 0)
    (hsum : s.processedBytes + ls.sum ≤ l) :
    processChunks s pr ls =
      ({ s with processedBytes := s.processedBytes + ls.sum },
       { pr with tracker :=
         { pr.tracker with progress := pr.tracker.progress ++ ls } }) := by
  induction ls generalizing s pr with
  | nil => simp [processChunks]
  | cons len rest ih =>
    have hgt : ¬ s.processedBytes + len > l := by
      simp only [List.sum_cons] at hsum
      omega
    have hch : processChunk s pr len =
        ({ s with processedBytes := s.processedBytes + len },
         { pr with tracker :=
           { pr.tracker with progress := pr.tracker.progress ++ [len] } }) := by
      simp [processChunk, validate_enabled len h h0, hgt]
    have hul : ({ s with processedBytes := s.processedBytes + len } :
        MState).upperLimit = some l := h
    have hsum2 : ({ s with processedBytes := s.processedBytes + len } :
        MState).processedBytes + rest.sum ≤ l := by
      show s.processedBytes + len + rest.sum ≤ l
      simp only [List.sum_cons] at hsum
      omega
    show processChunks (processChunk s pr len).1
      (processChunk s pr len).2 rest = _
    rw [hch]
    rw [@ih { s with processedBytes := s.processedBytes + len } _ hul hsum2]
    simp [List.sum_cons, Nat.add_assoc]

/-- Chunks that stay within a safe ceiling never settle the promise and
never emit a stream error; the tracker sees every chunk. -/
theorem processChunks_safe (ls : List Nat) {s : MState} (pr : PartRecord)
    (h : guardSafe s ls.sum) :
    (processChunks s pr ls).1.settled = s.settled ∧
    (processChunks s pr ls).2 =
      { pr with tracker :=
        { pr.tracker with progress := pr.tracker.progress ++ ls } } := by
  unfold guardSafe at h
  rcases hu : s.upperLimit with _ | l
  · rw [processChunks_disabled ls pr (Or.inl hu)]
    exact ⟨rfl, rfl⟩
  · rw [hu] at h
    by_cases h0 : l = 0
    · rw [processChunks_disabled ls pr (Or.inr (h0 ▸ hu))]
      exact ⟨rfl, rfl⟩
    · have hsum : s.processedBytes + ls.sum ≤ l := by
        rcases h with h | h
        · exact absurd h h0
        · exact h
      rw [processChunks_within ls pr hu h0 hsum]
      exact ⟨rfl, rfl⟩

/-- The guard always advances the counter by the chunk length whenever a
nonzero ceiling is configured, aborted or not. -/
theorem processChunk_pb_enabled {s : MState} {l : Nat} (pr : PartRecord)
    (len : Nat) (hl : s.upperLimit = some l) (h0 : l ≠ 0) :
    (processChunk s pr len).1.processedBytes = s.processedBytes + len := by
  have hv := validate_enabled len hl h0
  by_cases hgt : s.processedBytes + len > l
  · rw [if_pos hgt] at hv
    simp [processChunk, hv, abortOnForm, (onFormError_state _ _).2.1]
  · rw [if_neg hgt] at hv
    simp [processChunk, hv]

theorem processChunks_pb_enabled (ls : List Nat) {s : MState} {l : Nat}
    (pr : PartRecord) (hl : s.upperLimit = some l) (h0 : l ≠ 0) :
    (processChunks s pr ls).1.processedBytes = s.processedBytes + ls.sum := by
  induction ls generalizing s pr with
  | nil => simp [processChunks]
  | cons len rest ih =>
    have hul : (processChunk s pr len).1.upperLimit = some l :=
      (core_upperLimit (processChunk_state s pr len).1).trans hl
    have := ih (processChunk s pr len).2 hul
    show (processChunks (processChunk s pr len).1
      (processChunk s pr len).2 rest).1.processedBytes = _
    rw [this, processChunk_pb_enabled pr len hl h0]
    simp [List.sum_cons]
    omega

/-- `cleanup()` bumps the cleanup counter and republishes; nothing else. -/
theorem cleanup_state (s : MState) :
    core (cleanup s) = core s ∧
    (cleanup s).settled = s.settled ∧
    (cleanup s).processedBytes = s.processedBytes ∧
    (cleanup s).fields = s.fields ∧
    (cleanup s).files = s.files ∧
    (cleanup s).partRecords = s.partRecords ∧
    (cleanup s).pendingHandlers = s.pendingHandlers ∧
    (cleanup s).cleanupCount = s.cleanupCount + 1 := by
  simp [cleanup, core]

theorem completionCheck_state (s : MState) (fl : Int) :
    core (completionCheck s fl) = core s ∧
    (completionCheck s fl).processedBytes = s.processedBytes ∧
    (completionCheck s fl).fields = s.fields ∧
    (completionCheck s fl).files = s.files ∧
    (completionCheck s fl).partRecords = s.partRecords ∧
    (completionCheck s fl).pendingHandlers = s.pendingHandlers := by
  unfold completionCheck
  split_ifs
  · obtain ⟨rc, rpb, rfd, rfl', rpr, rph, _⟩ := resolveP_state (cleanup s)
    obtain ⟨cc, _, cpb, cfd, cfl, cpr, cph, _⟩ := cleanup_state s
    exact ⟨rc.trans cc, rpb.trans cpb, rfd.trans cfd, rfl'.trans cfl,
      rpr.trans cpr, rph.trans cph⟩
  · simp [core]

theorem completionCheck_of_settled {s : MState} (fl : Int)
    (h : s.settled ≠ none) :
    (completionCheck s fl).settled = s.settled := by
  unfold completionCheck
  split_ifs
  · have hc : (cleanup s).settled = s.settled := (cleanup_state s).2.1
    rw [resolveP_of_settled (by rw [hc]; exact h), hc]
  · rfl

/-- Any trigger that observes the completion predicate true runs
`cleanup()` — settled or not. -/
theorem completionCheck_closed_cleanupCount {s : MState} (fl : Int)
    (h : isClosedAt fl s = true) :
    (completionCheck s fl).cleanupCount = s.cleanupCount + 1 := by
  unfold completionCheck
  rw [if_pos h]
  rw [(resolveP_state _).2.2.2.2.2.2]
  exact (cleanup_state s).2.2.2.2.2.2.2

theorem completionCheck_not_closed {s : MState} (fl : Int)
    (h : isClosedAt fl s = false) :
    completionCheck s fl = s := by
  unfold completionCheck
  simp [h]

/-- `finishPart` bookkeeping: append the record, decrement the counter,
store the file when one was produced. -/
theorem finishPart_state (s2 : MState) (pr2 : PartRecord)
    (t : Option FileRecord) :
    core (finishPart s2 pr2 t) = core s2 ∧
    (finishPart s2 pr2 t).settled = s2.settled ∧
    (finishPart s2 pr2 t).processedBytes = s2.processedBytes ∧
    (finishPart s2 pr2 t).fields = s2.fields ∧
    (finishPart s2 pr2 t).cleanupCount = s2.cleanupCount ∧
    (finishPart s2 pr2 t).pendingHandlers = s2.pendingHandlers - 1 ∧
    (finishPart s2 pr2 t).partRecords = s2.partRecords ++ [pr2] := by
  rcases t with _ | f <;> simp [finishPart, core]

theorem reportOutcome_handlerId (pr : PartRecord) (o : HandlerOutcome) :
    (reportOutcome pr o).handlerId = pr.handlerId := by
  rcases o with (_ | r) | e <;> rfl

theorem reportOutcome_streamErrors (pr : PartRecord) (o : HandlerOutcome) :
    (reportOutcome pr o).streamErrors = pr.streamErrors := by
  rcases o with (_ | r) | e <;> rfl

/-- A part with an empty name or no matching handler is only resumed. -/
theorem handlePart_skip (s : MState) (p : PartEvent)
    (h : p.name = "" ∨ dispatchTarget s.handlers p.name = none) :
    handlePart s p = s := by
  unfold handlePart
  rcases h with h | h
  · simp [h]
  · by_cases hn : p.name = ""
    · simp [hn]
    · simp [hn, h]

theorem handlePart_state (s : MState) (p : PartEvent) :
    core (handlePart s p) = core s ∧
    (handlePart s p).fields = s.fields ∧
    (handlePart s p).pendingHandlers = s.pendingHandlers ∧
    (handlePart s p).cleanupCount = s.cleanupCount ∧
    s.processedBytes ≤ (handlePart s p).processedBytes := by
  unfold handlePart
  by_cases hn : p.name = ""
  · simp [hn]
  · rcases hd : dispatchTarget s.handlers p.name with _ | hid
    · simp [hn, hd]
    · simp only [hn, if_neg, hd, ite_false]
      rcases hc : processChunks
          { s with pendingHandlers := s.pendingHandlers + 1 }
          ⟨hid, ⟨[], [], []⟩, []⟩ p.chunks with ⟨s2, pr1⟩
      obtain ⟨kc, kfd, _, _, kph, kcc, kpb⟩ :=
        processChunks_state p.chunks
          { s with pendingHandlers := s.pendingHandlers + 1 }
          ⟨hid, ⟨[], [], []⟩, []⟩
      rw [hc] at kc kfd kph kcc kpb
      obtain ⟨fc, _, fpb, ffd, fcc, fph, _⟩ :=
        finishPart_state s2 (reportOutcome pr1 p.outcome) p.tfile
      refine ⟨fc.trans (kc.trans (by simp [core])), ffd.trans (by simpa using kfd),
        ?_, fcc.trans (by simpa using kcc), ?_⟩
      · rw [fph, kph]
        simp
      · calc s.processedBytes ≤ s2.processedBytes := by simpa using kpb
          _ = (finishPart s2 (reportOutcome pr1 p.outcome) p.tfile).processedBytes :=
            fpb.symm

theorem handlePart_of_settled {s : MState} (p : PartEvent)
    (h : s.settled ≠ none) :
    (handlePart s p).settled = s.settled := by
  unfold handlePart
  by_cases hn : p.name = ""
  · simp [hn]
  · rcases hd : dispatchTarget s.handlers p.name with _ | hid
    · simp [hn, hd]
    · simp only [hn, if_neg, hd, ite_false]
      rcases hc : processChunks
          { s with pendingHandlers := s.pendingHandlers + 1 }
          ⟨hid, ⟨[], [], []⟩, []⟩ p.chunks with ⟨s2, pr1⟩
      have kst := processChunks_of_settled p.chunks
        { s with pendingHandlers := s.pendingHandlers + 1 }
        ⟨hid, ⟨[], [], []⟩, []⟩ (by simpa using h)
      rw [hc] at kst
      rw [(finishPart_state s2 (reportOutcome pr1 p.outcome) p.tfile).2.1]
      simpa using kst

/-- Every dispatched part appends exactly one part record carrying the id
of the handler the registry resolved. -/
theorem handlePart_records (s : MState) (p : PartEvent) (hid : Nat)
    (hn : p.name ≠ "") (hd : dispatchTarget s.handlers p.name = some hid) :
    ∃ pr, (handlePart s p).partRecords = s.partRecords ++ [pr] ∧
      pr.handlerId = hid := by
  unfold handlePart
  simp only [hn, if_neg, hd, ite_false]
  rcases hc : processChunks
      { s with pendingHandlers := s.pendingHandlers + 1 }
      ⟨hid, ⟨[], [], []⟩, []⟩ p.chunks with ⟨s2, pr1⟩
  obtain ⟨_, _, _, kpr, _, _, _⟩ :=
    processChunks_state p.chunks
      { s with pendingHandlers := s.pendingHandlers + 1 }
      ⟨hid, ⟨[], [], []⟩, []⟩
  rw [hc] at kpr
  obtain ⟨kid, _, _, _⟩ :=
    processChunks_record p.chunks
      { s with pendingHandlers := s.pendingHandlers + 1 }
      ⟨hid, ⟨[], [], []⟩, []⟩
  rw [hc] at kid
  refine ⟨reportOutcome pr1 p.outcome, ?_, ?_⟩
  · rw [(finishPart_state s2 (reportOutcome pr1 p.outcome) p.tfile).2.2.2.2.2.2,
      kpr]
  · rw [reportOutcome_handlerId]
    simpa using kid

/-- With a nonzero ceiling, a part advances the counter by the total length
of the chunks its handler fed through the progress callback (nothing for a
skipped part). -/
theorem handlePart_pb_enabled {s : MState} {l : Nat} (p : PartEvent)
    (hl : s.upperLimit = some l) (h0 : l ≠ 0) :
    (handlePart s p).processedBytes =
      s.processedBytes + eventBytes s.handlers (.part p) := by
  unfold handlePart
  by_cases hn : p.name = ""
  · simp [hn, eventBytes]
  · rcases hd : dispatchTarget s.handlers p.name with _ | hid
    · simp [hn, hd, eventBytes]
    · simp only [hn, if_neg, hd, ite_false]
      rcases hc : processChunks
          { s with pendingHandlers := s.pendingHandlers + 1 }
          ⟨hid, ⟨[], [], []⟩, []⟩ p.chunks with ⟨s2, pr1⟩
      have kpb := processChunks_pb_enabled p.chunks
        (s := { s with pendingHandlers := s.pendingHandlers + 1 })
        ⟨hid, ⟨[], [], []⟩, []⟩ hl h0
      rw [hc] at kpb
      rw [(finishPart_state s2 (reportOutcome pr1 p.outcome) p.tfile).2.2.1,
        kpb]
      simp [eventBytes, hn, hd]

theorem handleFieldStep_state (s : MState) (k v : String)
    (aerr : Option Exn) :
    core (handleFieldStep s k v aerr) = core s ∧
    (handleFieldStep s k v aerr).files = s.files ∧
    (handleFieldStep s k v aerr).partRecords = s.partRecords ∧
    (handleFieldStep s k v aerr).pendingHandlers = s.pendingHandlers ∧
    (handleFieldStep s k v aerr).cleanupCount = s.cleanupCount ∧
    s.processedBytes ≤ (handleFieldStep s k v aerr).processedBytes := by
  unfold handleFieldStep
  by_cases hk : k = ""
  · simp [hk]
  · obtain ⟨vc, _, _, vfl, vpr, vph, vcc, vpb⟩ := validate_state s v.length
    rcases hv : validateProcessedBytes s v.length with ⟨s2, e?⟩
    rw [hv] at vc vfl vpr vph vcc vpb
    rcases e? with _ | e
    · rcases aerr with _ | ex
      · simp only [hk, if_neg, ite_false]
        exact ⟨by simpa [core] using vc, by simpa using vfl,
          by simpa using vpr, by simpa using vph, by simpa using vcc,
          by simpa using vpb⟩
      · simp only [hk, if_neg, ite_false]
        obtain ⟨oc, opb, _, ofl, opr, oph, occ⟩ := onFormError_state s2 ex
        exact ⟨oc.trans vc, ofl.trans vfl, opr.trans vpr, oph.trans vph,
          occ.trans vcc, le_trans vpb (le_of_eq opb.symm)⟩
    · simp only [hk, if_neg, ite_false]
      obtain ⟨oc, opb, _, ofl, opr, oph, occ⟩ := onFormError_state s2 e
      exact ⟨oc.trans vc, ofl.trans vfl, opr.trans vpr, oph.trans vph,
        occ.trans vcc, le_trans vpb (le_of_eq opb.symm)⟩

theorem handleFieldStep_of_settled {s : MState} (k v : String)
    (aerr : Option Exn) (h : s.settled ≠ none) :
    (handleFieldStep s k v aerr).settled = s.settled := by
  unfold handleFieldStep
  by_cases hk : k = ""
  · simp [hk]
  · obtain ⟨_, vst, _⟩ := validate_state s v.length
    rcases hv : validateProcessedBytes s v.length with ⟨s2, e?⟩
    rw [hv] at vst
    have h2 : s2.settled ≠ none := by rw [vst]; exact h
    rcases e? with _ | e
    · rcases aerr with _ | ex
      · simpa [hk] using vst
      · simp only [hk, if_neg, ite_false]
        show (abortOnForm s2 ex).settled = s.settled
        unfold abortOnForm
        rw [onFormError_of_settled ex h2]
        exact vst
    · simp only [hk, if_neg, ite_false]
      show (abortOnForm s2 e).settled = s.settled
      unfold abortOnForm
      rw [onFormError_of_settled e h2]
      exact vst

/-- With a nonzero ceiling, a field advances the counter by its value's
length (nothing for an empty key). -/
theorem handleFieldStep_pb_enabled {s : MState} {l : Nat} (k v : String)
    (aerr : Option Exn) (hl : s.upperLimit = some l) (h0 : l ≠ 0) :
    (handleFieldStep s k v aerr).processedBytes =
      s.processedBytes + eventBytes s.handlers (.field k v aerr) := by
  unfold handleFieldStep
  by_cases hk : k = ""
  · simp [hk, eventBytes]
  · have hv := validate_enabled v.length hl h0
    by_cases hgt : s.processedBytes + v.length > l
    · rw [if_pos hgt] at hv
      simp [hk, hv, abortOnForm, (onFormError_state _ _).2.1, eventBytes]
    · rw [if_neg hgt] at hv
      rcases aerr with _ | ex
      · simp [hk, hv, eventBytes]
      · simp [hk, hv, abortOnForm, (onFormError_state _ _).2.1, eventBytes]

/-- One decoder notification never touches the registry, the consumed
latch, the byte ceiling, the form count, or the (settled) pending counter,
and never decreases the processed-bytes counter. -/
theorem step_state (s : MState) (e : FormEvent) :
    core (step s e) = core s ∧
    (step s e).pendingHandlers = s.pendingHandlers ∧
    s.processedBytes ≤ (step s e).processedBytes := by
  rcases e with p | ⟨k, v, aerr⟩ | msg | fl
  · obtain ⟨hc, _, hph, _, hpb⟩ := handlePart_state s p
    obtain ⟨cc, cpb, _, _, _, cph⟩ :=
      completionCheck_state (handlePart s p) p.flushingAtCheck
    exact ⟨cc.trans hc, cph.trans hph,
      le_trans hpb (le_of_eq cpb.symm)⟩
  · obtain ⟨hc, _, _, hph, _, hpb⟩ := handleFieldStep_state s k v aerr
    exact ⟨hc, hph, hpb⟩
  · obtain ⟨hc, hpb, _, _, _, hph, _⟩ := onFormError_state s (decoderError msg)
    exact ⟨hc, hph, le_of_eq hpb.symm⟩
  · obtain ⟨cc, cpb, _, _, _, cph⟩ := completionCheck_state s fl
    exact ⟨cc, cph, le_of_eq cpb.symm⟩

/-- A settled promise never changes its settlement again: whatever later
notifications arrive, `resolve`/`reject` are no-ops. -/
theorem step_of_settled {s : MState} (e : FormEvent) (h : s.settled ≠ none) :
    (step s e).settled = s.settled := by
  rcases e with p | ⟨k, v, aerr⟩ | msg | fl
  · have hp := handlePart_of_settled p h
    have := completionCheck_of_settled (s := handlePart s p) p.flushingAtCheck
      (by rw [hp]; exact h)
    exact this.trans hp
  · exact handleFieldStep_of_settled k v aerr h
  · show (onFormError s (decoderError msg)).settled = s.settled
    rw [onFormError_of_settled _ h]
  · exact completionCheck_of_settled fl h

theorem run_state (s : MState) (events : List FormEvent) :
    core (run s events) = core s ∧
    (run s events).pendingHandlers = s.pendingHandlers ∧
    s.processedBytes ≤ (run s events).processedBytes := by
  induction events generalizing s with
  | nil => simp [run]
  | cons e rest ih =>
    obtain ⟨hc, hph, hpb⟩ := step_state s e
    obtain ⟨ic, iph, ipb⟩ := ih (step s e)
    exact ⟨ic.trans hc, iph.trans hph, le_trans hpb ipb⟩

theorem run_of_settled {s : MState} (events : List FormEvent)
    (h : s.settled ≠ none) :
    (run s events).settled = s.settled := by
  induction events generalizing s with
  | nil => rfl
  | cons e rest ih =>
    have hs := step_of_settled e h
    have := ih (s := step s e) (by rw [hs]; exact h)
    exact this.trans hs

/-- With a nonzero ceiling, one notification advances the counter by
exactly its guarded bytes. -/
theorem step_pb_enabled {s : MState} {l : Nat} (e : FormEvent)
    (hl : s.upperLimit = some l) (h0 : l ≠ 0) :
    (step s e).processedBytes = s.processedBytes + eventBytes s.handlers e := by
  rcases e with p | ⟨k, v, aerr⟩ | msg | fl
  · have := handlePart_pb_enabled p hl h0
    rw [show (step s (.part p)).processedBytes =
      (handlePart s p).processedBytes from
      (completionCheck_state (handlePart s p) p.flushingAtCheck).2.1, this]
  · exact handleFieldStep_pb_enabled k v aerr hl h0
  · rw [show (step s (.formError msg)).processedBytes = s.processedBytes from
      (onFormError_state s (decoderError msg)).2.1]
    simp [eventBytes]
  · rw [show (step s (.close fl)).processedBytes = s.processedBytes from
      (completionCheck_state s fl).2.1]
    simp [eventBytes]

theorem run_pb_enabled {s : MState} {l : Nat} (events : List FormEvent)
    (hl : s.upperLimit = some l) (h0 : l ≠ 0) :
    (run s events).processedBytes =
      s.processedBytes + totalBytes s.handlers events := by
  induction events generalizing s with
  | nil => simp [run, totalBytes]
  | cons e rest ih =>
    have hul : (step s e).upperLimit = some l :=
      (core_upperLimit (step_state s e).1).trans hl
    have hh : (step s e).handlers = s.handlers :=
      core_handlers (step_state s e).1
    show (run (step s e) rest).processedBytes = _
    rw [ih hul, hh, step_pb_enabled e hl h0]
    simp [totalBytes]
    omega

/-- With a falsy ceiling, nothing is ever added to the counter. -/
theorem step_pb_disabled {s : MState} (e : FormEvent)
    (h : s.upperLimit = none ∨ s.upperLimit = some 0) :
    (step s e).processedBytes = s.processedBytes := by
  rcases e with p | ⟨k, v, aerr⟩ | msg | fl
  · show (completionCheck (handlePart s p) p.flushingAtCheck).processedBytes =
      s.processedBytes
    rw [(completionCheck_state (handlePart s p) p.flushingAtCheck).2.1]
    unfold handlePart
    by_cases hn : p.name = ""
    · simp [hn]
    · rcases hd : dispatchTarget s.handlers p.name with _ | hid
      · simp [hn, hd]
      · simp only [hn, if_neg, hd, ite_false]
        rw [processChunks_disabled p.chunks ⟨hid, ⟨[], [], []⟩, []⟩
          (by simpa using h)]
        rw [(finishPart_state _ _ _).2.2.1]
  · show (handleFieldStep s k v aerr).processedBytes = s.processedBytes
    unfold handleFieldStep
    by_cases hk : k = ""
    · simp [hk]
    · rw [validate_disabled v.length h]
      rcases aerr with _ | ex
      · simp [hk]
      · simp [hk, abortOnForm, (onFormError_state _ _).2.1]
  · exact (onFormError_state s (decoderError msg)).2.1
  · exact (completionCheck_state s fl).2.1

theorem run_pb_disabled {s : MState} (events : List FormEvent)
    (h : s.upperLimit = none ∨ s.upperLimit = some 0) :
    (run s events).processedBytes = s.processedBytes := by
  induction events generalizing s with
  | nil => rfl
  | cons e rest ih =>
    have hul : (step s e).upperLimit = s.upperLimit :=
      core_upperLimit (step_state s e).1
    have := ih (s := step s e) (by rw [hul]; exact h)
    exact this.trans (step_pb_disabled e h)

/-! A zero ceiling behaves identically to no ceiling at all -/

theorem rejectP_limitTransport (s : MState) (u : Option Nat) (e : Exn) :
    rejectP { s with upperLimit := u } e = { rejectP s e with upperLimit := u } := by
  unfold rejectP
  by_cases h : s.settled = none <;> simp [h]

theorem resolveP_limitTransport (s : MState) (u : Option Nat) :
    resolveP { s with upperLimit := u } = { resolveP s with upperLimit := u } := by
  unfold resolveP
  by_cases h : s.settled = none <;> simp [h]

theorem onFormError_limitTransport (s : MState) (u : Option Nat) (e : Exn) :
    onFormError { s with upperLimit := u } e =
      { onFormError s e with upperLimit := u } := by
  unfold onFormError
  by_cases hm : e.message = "maxFields 1 exceeded." <;>
    simp [hm, rejectP_limitTransport]

theorem cleanup_limitTransport (s : MState) (u : Option Nat) :
    cleanup { s with upperLimit := u } = { cleanup s with upperLimit := u } := rfl

theorem completionCheck_limitTransport (s : MState) (u : Option Nat)
    (fl : Int) :
    completionCheck { s with upperLimit := u } fl =
      { completionCheck s fl with upperLimit := u } := by
  unfold completionCheck
  have hcl : isClosedAt fl { s with upperLimit := u } = isClosedAt fl s := rfl
  rw [hcl]
  by_cases h : isClosedAt fl s = true
  · rw [if_pos h, if_pos h, cleanup_limitTransport, resolveP_limitTransport]
  · rw [if_neg h, if_neg h]

theorem handlePart_limitTransport (s : MState) (p : PartEvent)
    (h : s.upperLimit = none) :
    handlePart { s with upperLimit := some 0 } p =
      { handlePart s p with upperLimit := some 0 } := by
  unfold handlePart
  by_cases hn : p.name = ""
  · simp [hn]
  · rcases hd : dispatchTarget s.handlers p.name with _ | hid
    · simp [hn, hd]
    · simp only [hn, ite_false, if_neg, hd]
      have e1 := processChunks_disabled p.chunks
        (s := { s with pendingHandlers := s.pendingHandlers + 1,
                       upperLimit := some 0 })
        ⟨hid, ⟨[], [], []⟩, []⟩ (Or.inr rfl)
      have e2 := processChunks_disabled p.chunks
        (s := { s with pendingHandlers := s.pendingHandlers + 1 })
        ⟨hid, ⟨[], [], []⟩, []⟩ (Or.inl (by simpa using h))
      rw [e1, e2]
      rcases p.tfile with _ | f <;> rfl

theorem handleFieldStep_limitTransport (s : MState) (k v : String)
    (aerr : Option Exn) (h : s.upperLimit = none) :
    handleFieldStep { s with upperLimit := some 0 } k v aerr =
      { handleFieldStep s k v aerr with upperLimit := some 0 } := by
  unfold handleFieldStep
  by_cases hk : k = ""
  · simp [hk]
  · rw [validate_disabled (s := { s with upperLimit := some 0 }) v.length
        (Or.inr rfl),
      validate_disabled (s := s) v.length (Or.inl h)]
    rcases aerr with _ | ex
    · simp [hk]
    · simp only [hk, ite_false, if_neg]
      exact onFormError_limitTransport s (some 0) ex

theorem step_limitTransport (s : MState) (e : FormEvent)
    (h : s.upperLimit = none) :
    step { s with upperLimit := some 0 } e =
      { step s e with upperLimit := some 0 } := by
  rcases e with p | ⟨k, v, aerr⟩ | msg | fl
  · show completionCheck (handlePart { s with upperLimit := some 0 } p)
      p.flushingAtCheck = _
    rw [handlePart_limitTransport s p h, completionCheck_limitTransport]
    rfl
  · exact handleFieldStep_limitTransport s k v aerr h
  · exact onFormError_limitTransport s (some 0) (decoderError msg)
  · exact completionCheck_limitTransport s (some 0) fl

theorem run_limitTransport (s : MState) (events : List FormEvent)
    (h : s.upperLimit = none) :
    run { s with upperLimit := some 0 } events =
      { run s events with upperLimit := some 0 } := by
  induction events generalizing s with
  | nil => rfl
  | cons e rest ih =>
    show run (step { s with upperLimit := some 0 } e) rest = _
    rw [step_limitTransport s e h,
      ih (step s e) ((core_upperLimit (step_state s e).1).trans h)]
    rfl

/-! Claim theorems -/

/-- C1, counterexample: the claim says Aggregation (cleanup) is performed
exactly once per `process` invocation and that a second satisfaction of the
completion predicate is a no-op.  In the code the close listener is not
guarded: after a part-completion check has already cleaned up and resolved,
a close notification that still observes the predicate true runs
`cleanup()` a second time (the second `resolve()` alone is a no-op).  With
a wildcard handler, one handled part and then the close notification, the
cleanup counter ends at 2, not 1. -/
theorem claim1_counterexample :
    (processCall (onFile (initialState ⟨none, none⟩) "*" 7) none
        [.part ⟨"x", [], .success none, none, 0⟩, .close 0]).1.cleanupCount
      = 2 ∧
    (processCall (onFile (initialState ⟨none, none⟩) "*" 7) none
        [.part ⟨"x", [], .success none, none, 0⟩, .close 0]).1.settled
      = some .resolved := by
  exact ⟨rfl, rfl⟩

/-- C1, amended: the outer promise settles at most once (once settled, no
later decoder notification changes the settlement), but Aggregation itself
is unguarded: every trigger that observes the completion predicate true
runs `cleanup()` again — in particular a close notification arriving after
the promise has already settled still re-executes the publication. -/
theorem claim1_amended :
    (∀ (s : MState) (events : List FormEvent) (r : Settle),
      s.settled = some r → (run s events).settled = some r) ∧
    (∀ (s : MState) (fl : Int), s.settled ≠ none → isClosedAt fl s = true →
      (step s (.close fl)).cleanupCount = s.cleanupCount + 1 ∧
      (step s (.close fl)).settled = s.settled) := by
  constructor
  · intro s events r h
    rw [run_of_settled events (by rw [h]; exact Option.some_ne_none r), h]
  · intro s fl hs hc
    exact ⟨completionCheck_closed_cleanupCount fl hc,
      completionCheck_of_settled fl hs⟩

/-- C1, witness for the amended theorem at a concrete resolved state. -/
theorem claim1_witness :
    (run { initialState ⟨none, none⟩ with settled := some .resolved }
        [.close 0]).settled = some .resolved ∧
    (step { initialState ⟨none, none⟩ with settled := some .resolved }
        (.close 0)).cleanupCount = 1 := by
  refine ⟨claim1_amended.1 _ _ _ rfl, ?_⟩
  have := (claim1_amended.2
    { initialState ⟨none, none⟩ with settled := some .resolved } 0
    (by simp) rfl).1
  simpa using this

/-- C2, counterexample: the claim says the processed-bytes counter
accumulates the total of bytes seen across all parts and fields in every
run of `process`.  With no configured limit, `validateProcessedBytes`
returns before touching the counter: a 5-byte field is seen and recorded,
yet the counter stays 0. -/
theorem claim2_counterexample :
    (processCall (initialState ⟨none, none⟩) none
        [.field "note" "hello" none]).1.processedBytes = 0 ∧
    (processCall (initialState ⟨none, none⟩) none
        [.field "note" "hello" none]).1.fields.valuesOf "note" = ["hello"] ∧
    "hello".length = 5 := by
  exact ⟨rfl, rfl, rfl⟩

/-- C2, amended: the counter is non-decreasing in every run; when a nonzero
byte ceiling is resolved it accumulates exactly the guarded bytes (chunks
fed to the progress callbacks of dispatched parts plus the value lengths of
fields with nonempty keys), the guard being invoked on every chunk and
every field; with a falsy ceiling the counter is never advanced. -/
theorem claim2_theorem :
    (∀ (s : MState) (events : List FormEvent),
      s.processedBytes ≤ (run s events).processedBytes) ∧
    (∀ (s : MState) (events : List FormEvent) (l : Nat),
      s.upperLimit = some l → l ≠ 0 →
      (run s events).processedBytes =
        s.processedBytes + totalBytes s.handlers events) ∧
    (∀ (s : MState) (events : List FormEvent),
      s.upperLimit = none ∨ s.upperLimit = some 0 →
      (run s events).processedBytes = s.processedBytes) := by
  refine ⟨fun s events => (run_state s events).2.2,
    fun s events l hl h0 => run_pb_enabled events hl h0,
    fun s events h => run_pb_disabled events h⟩

/-- C2, witness: the amended accumulation at a 10-byte ceiling over one
3-byte field and one skipped (empty-key) field. -/
theorem claim2_witness :
    (run { initialState ⟨none, none⟩ with upperLimit := some 10 }
        [.field "a" "xyz" none, .field "" "zz" none]).processedBytes =
      0 + totalBytes [] [.field "a" "xyz" none, .field "" "zz" none] ∧
    ({ initialState ⟨none, none⟩ with upperLimit := some 10 } :
      MState).processedBytes ≤
      (run { initialState ⟨none, none⟩ with upperLimit := some 10 }
        [.field "a" "xyz" none, .field "" "zz" none]).processedBytes ∧
    (run (initialState ⟨none, none⟩)
        [.field "a" "xyz" none]).processedBytes =
      (initialState ⟨none, none⟩).processedBytes := by
  refine ⟨?_, claim2_theorem.1 _ _, claim2_theorem.2.2 _ _ (Or.inl rfl)⟩
  exact claim2_theorem.2.1 _ _ 10 rfl (by decide)

/-- C3, counterexample: the claim says handler resolution strips a
*trailing* array-index suffix and otherwise looks the name up as is.  The
code removes the *first* bracketed digit group anywhere in the name
(`name.replace(/\[\d*\]/, '')`): the part name `a[1]b` carries no trailing
suffix and has no binding of its own and no wildcard binding, yet the
handler registered for `ab` is invoked. -/
theorem claim3_counterexample :
    getHandlerName "a[1]b" = "ab" ∧
    stripTrailingIndexSuffix "a[1]b" = "a[1]b" ∧
    List.lookup "a[1]b"
      (onFile (initialState ⟨none, none⟩) "ab" 1).handlers = none ∧
    List.lookup "*"
      (onFile (initialState ⟨none, none⟩) "ab" 1).handlers = none ∧
    (step (onFile (initialState ⟨none, none⟩) "ab" 1)
        (.part ⟨"a[1]b", [], .success none, none, 1⟩)).partRecords =
      [⟨1, ⟨[], [], []⟩, []⟩] := by
  exact ⟨rfl, rfl, rfl, rfl, rfl⟩

/-- C3, amended: resolution normalizes the part name by removing the first
bracketed digit group occurring anywhere in the name (agreeing with the
claim on a trailing suffix such as `docs[2]`, but also rewriting `a[1]b`
to `ab` and `docs[0][1]` to `docs[1]`), then uses the binding for the
normalized name, falling back to the `*` binding; a part with an empty name
or no resolvable binding changes nothing, and a dispatched part records the
resolved handler exactly once. -/
theorem claim3_theorem :
    getHandlerName "docs[2]" = "docs" ∧
    getHandlerName "a[1]b" = "ab" ∧
    getHandlerName "docs[0][1]" = "docs[1]" ∧
    (∀ (s : MState) (p : PartEvent),
      p.name = "" ∨ dispatchTarget s.handlers p.name = none →
      handlePart s p = s) ∧
    (∀ (s : MState) (p : PartEvent) (hid : Nat),
      p.name ≠ "" → dispatchTarget s.handlers p.name = some hid →
      ∃ pr, (handlePart s p).partRecords = s.partRecords ++ [pr] ∧
        pr.handlerId = hid) := by
  exact ⟨rfl, rfl, rfl, handlePart_skip, handlePart_records⟩

/-- C3, witness: the amended dispatch behaviour at concrete parts — the
spec example `docs[2]` routed to the `docs` binding, and a nameless part
skipped. -/
theorem claim3_witness :
    handlePart (onFile (initialState ⟨none, none⟩) "docs" 4)
        ⟨"", [1], .success none, none, 0⟩ =
      onFile (initialState ⟨none, none⟩) "docs" 4 ∧
    ∃ pr,
      (handlePart (onFile (initialState ⟨none, none⟩) "docs" 4)
          ⟨"docs[2]", [], .success none, none, 0⟩).partRecords =
        (onFile (initialState ⟨none, none⟩) "docs" 4).partRecords ++ [pr] ∧
      pr.handlerId = 4 := by
  exact ⟨claim3_theorem.2.2.2.1 _ _ (Or.inl rfl),
    claim3_theorem.2.2.2.2 _ _ 4 (by decide) rfl⟩

/-- C4, counterexample: the claim says every too-many-fields decoder error
is translated into the dedicated 413 `E_REQUEST_ENTITY_TOO_LARGE` failure.
The listener compares the message against the exact string
`maxFields 1 exceeded.`; with a cap of 2 the decoder reports
`maxFields 2 exceeded.`, which is rejected verbatim (no status, no code),
not as the dedicated failure. -/
theorem claim4_counterexample :
    (processCall (initialState ⟨some 2, none⟩) none
        [.formError (maxFieldsErrorMessage 2)]).1.settled =
      some (.rejected (decoderError (maxFieldsErrorMessage 2))) ∧
    decoderError (maxFieldsErrorMessage 2) ≠ maxFieldsExceeded ∧
    (decoderError (maxFieldsErrorMessage 2)).code ≠
      some "E_REQUEST_ENTITY_TOO_LARGE" := by
  refine ⟨rfl, by decide, by decide⟩

/-- C4, amended: on a decoder error the outer promise rejects with that
error verbatim, except that the one message `maxFields 1 exceeded.` (what
the decoder emits when the cap is 1) is translated into the dedicated 413
`Max fields limit exceeded` failure. -/
theorem claim4_theorem :
    maxFieldsErrorMessage 1 = "maxFields 1 exceeded." ∧
    (∀ (s : MState) (msg : String), s.settled = none →
      (step s (.formError msg)).settled =
        some (.rejected (if msg = "maxFields 1 exceeded."
          then maxFieldsExceeded else decoderError msg))) := by
  refine ⟨rfl, fun s msg h => ?_⟩
  show (onFormError s (decoderError msg)).settled = _
  unfold onFormError
  by_cases hm : msg = "maxFields 1 exceeded."
  · rw [if_pos (by simpa [decoderError] using hm), if_pos hm,
      rejectP_of_unsettled _ h]
  · rw [if_neg (by simpa [decoderError] using hm), if_neg hm,
      rejectP_of_unsettled _ h]

/-- C4, witness: the amended listener behaviour on both message shapes. -/
theorem claim4_witness :
    (step (initialState ⟨some 1, none⟩)
        (.formError "maxFields 1 exceeded.")).settled =
      some (.rejected maxFieldsExceeded) ∧
    (step (initialState ⟨none, none⟩) (.formError "boom")).settled =
      some (.rejected (decoderError "boom")) := by
  constructor
  · have := claim4_theorem.2 (initialState ⟨some 1, none⟩)
      "maxFields 1 exceeded." rfl
    simpa using this
  · have := claim4_theorem.2 (initialState ⟨none, none⟩) "boom" rfl
    simpa using this

/-- C5: every chunk delivered to the progress callback goes through the
Byte-Limit Guard (the chunk step's counter is exactly the guard's), and
when the guard reports the ceiling exceeded — the failure is always the
413 `request entity too large` exception — the error is emitted on the
part's own stream AND the form aborts, rejecting the (unsettled) outer
promise with that very error; the chunk is still reported to the
tracker. -/
theorem claim5_theorem :
    (∀ (s : MState) (pr : PartRecord) (len : Nat),
      (processChunk s pr len).1.processedBytes =
        (validateProcessedBytes s len).1.processedBytes) ∧
    (∀ (s : MState) (pr : PartRecord) (len : Nat) (e : Exn),
      s.settled = none →
      (validateProcessedBytes s len).2 = some e →
      e = entityTooLarge ∧
      (processChunk s pr len).1.settled = some (.rejected e) ∧
      (processChunk s pr len).2.streamErrors = pr.streamErrors ++ [e] ∧
      (processChunk s pr len).2.tracker.progress =
        pr.tracker.progress ++ [len]) := by
  constructor
  · intro s pr len
    rcases hv : validateProcessedBytes s len with ⟨s2, e?⟩
    rcases e? with _ | e
    · simp [processChunk, hv]
    · have hpb : (onFormError s2 e).processedBytes = s2.processedBytes :=
        (onFormError_state s2 e).2.1
      simp [processChunk, hv, abortOnForm, hpb]
  · intro s pr len e hst hve
    have he : e = entityTooLarge := by
      rcases validate_snd s len with h' | h'
      · rw [h'] at hve
        exact absurd hve (by simp)
      · rw [h'] at hve
        exact (Option.some.injEq _ _ ▸ hve :
          entityTooLarge = e).symm
    obtain ⟨_, vst, _⟩ := validate_state s len
    rcases hv : validateProcessedBytes s len with ⟨s2, e?⟩
    rw [hv] at hve vst
    have he2 : e? = some e := hve
    subst he2
    refine ⟨he, ?_, by simp [processChunk, hv], by simp [processChunk, hv]⟩
    have hred : (processChunk s pr len).1 = abortOnForm s2 e := by
      simp [processChunk, hv]
    rw [hred]
    unfold abortOnForm onFormError
    rw [if_neg (by rw [he]; decide), rejectP_of_unsettled e (by rw [vst]; exact hst)]

/-- C5, witness: at a 10-byte ceiling with 8 bytes already counted, a
5-byte chunk trips the guard: the part stream receives the 413 error and
the promise rejects with it. -/
theorem claim5_witness :
    (processChunk
        { initialState ⟨none, none⟩ with
          upperLimit := some 10, processedBytes := 8 }
        ⟨0, ⟨[], [], []⟩, []⟩ 5).1.settled =
      some (.rejected entityTooLarge) ∧
    (processChunk
        { initialState ⟨none, none⟩ with
          upperLimit := some 10, processedBytes := 8 }
        ⟨0, ⟨[], [], []⟩, []⟩ 5).2.streamErrors = [] ++ [entityTooLarge] ∧
    (processChunk
        { initialState ⟨none, none⟩ with
          upperLimit := some 10, processedBytes := 8 }
        ⟨0, ⟨[], [], []⟩, []⟩ 5).1.processedBytes =
      (validateProcessedBytes
        { initialState ⟨none, none⟩ with
          upperLimit := some 10, processedBytes := 8 } 5).1.processedBytes := by
  have h := claim5_theorem.2
    { initialState ⟨none, none⟩ with
      upperLimit := some 10, processedBytes := 8 }
    ⟨0, ⟨[], [], []⟩, []⟩ 5 entityTooLarge rfl rfl
  exact ⟨h.2.1, h.2.2.1, claim5_theorem.1 _ _ _⟩

/-- C6: when the dispatched handler of a part throws (and the byte guard is
not tripped by that part's chunks), the error is reported to the part's
tracker, the tracker's file (if any) still lands in the file accumulator,
the pending-handler counter returns to its prior value, and the outer
promise is never rejected by this — the part-completion check may still
resolve it. -/
theorem claim6_theorem :
    ∀ (s : MState) (p : PartEvent) (hid : Nat) (e : Exn),
      s.settled = none →
      guardSafe s p.chunks.sum →
      p.name ≠ "" →
      dispatchTarget s.handlers p.name = some hid →
      p.outcome = .failure e →
      (∃ pr, (handlePart s p).partRecords = s.partRecords ++ [pr] ∧
        pr.handlerId = hid ∧
        pr.tracker.errors = [e] ∧
        pr.streamErrors = []) ∧
      (handlePart s p).files = (match p.tfile with
        | some f => s.files.add f.fieldName f
        | none => s.files) ∧
      (handlePart s p).pendingHandlers = s.pendingHandlers ∧
      (∀ ex, (step s (.part p)).settled ≠ some (.rejected ex)) := by
  intro s p hid e hst hsafe hn hd ho
  obtain ⟨kset, krec⟩ := processChunks_safe p.chunks
    (s := { s with pendingHandlers := s.pendingHandlers + 1 })
    ⟨hid, ⟨[], [], []⟩, []⟩ hsafe
  obtain ⟨_, _, kfl, kpr, kph, _, _⟩ :=
    processChunks_state p.chunks
      { s with pendingHandlers := s.pendingHandlers + 1 }
      ⟨hid, ⟨[], [], []⟩, []⟩
  rcases hc : processChunks
      { s with pendingHandlers := s.pendingHandlers + 1 }
      ⟨hid, ⟨[], [], []⟩, []⟩ p.chunks with ⟨s2, pr1⟩
  rw [hc] at kset krec kfl kpr kph
  have hhp : handlePart s p =
      finishPart s2 (reportOutcome pr1 p.outcome) p.tfile := by
    unfold handlePart
    simp only [hn, ite_false, if_neg, hd]
    rw [hc]
  obtain ⟨_, fst, _, _, _, fph, fpr⟩ :=
    finishPart_state s2 (reportOutcome pr1 p.outcome) p.tfile
  have hpr1 : pr1 = ⟨hid, ⟨p.chunks, [], []⟩, []⟩ := by
    simpa using krec
  have hsettled : (handlePart s p).settled = none := by
    rw [hhp, fst]
    simpa using kset.trans (by simpa using hst)
  refine ⟨⟨reportOutcome pr1 p.outcome, ?_, ?_, ?_, ?_⟩, ?_, ?_, ?_⟩
  · rw [hhp, fpr]
    simpa using kpr
  · rw [reportOutcome_handlerId, hpr1]
  · rw [ho, hpr1]
    rfl
  · rw [reportOutcome_streamErrors, hpr1]
  · rw [hhp]
    rcases p.tfile with _ | f
    · show (finishPart s2 _ none).files = s.files
      simpa [finishPart] using kfl
    · show (finishPart s2 _ (some f)).files = s.files.add f.fieldName f
      simp only [finishPart]
      rw [show s2.files = s.files by simpa using kfl]
  · rw [hhp, fph]
    have : s2.pendingHandlers = s.pendingHandlers + 1 := by simpa using kph
    rw [this]
    omega
  · intro ex
    show (completionCheck (handlePart s p) p.flushingAtCheck).settled ≠ _
    unfold completionCheck
    split_ifs
    · rw [resolveP_of_unsettled
        (by rw [(cleanup_state _).2.1]; exact hsettled)]
      simp
    · rw [hsettled]
      simp

/-- C6, witness: a wildcard-dispatched part whose handler throws `boom`
with no byte ceiling configured: error recorded on the tracker, file
stored, counter restored, promise not rejected. -/
theorem claim6_witness :
    (∃ pr,
      (handlePart (onFile (initialState ⟨none, none⟩) "*" 3)
          ⟨"file1", [4, 5], .failure ⟨"boom", none, none⟩,
            some ⟨"file1", 9⟩, 1⟩).partRecords =
        (onFile (initialState ⟨none, none⟩) "*" 3).partRecords ++ [pr] ∧
      pr.handlerId = 3 ∧
      pr.tracker.errors = [⟨"boom", none, none⟩] ∧
      pr.streamErrors = []) ∧
    (handlePart (onFile (initialState ⟨none, none⟩) "*" 3)
        ⟨"file1", [4, 5], .failure ⟨"boom", none, none⟩,
          some ⟨"file1", 9⟩, 1⟩).pendingHandlers =
      (onFile (initialState ⟨none, none⟩) "*" 3).pendingHandlers ∧
    (∀ ex, (step (onFile (initialState ⟨none, none⟩) "*" 3)
        (.part ⟨"file1", [4, 5], .failure ⟨"boom", none, none⟩,
          some ⟨"file1", 9⟩, 1⟩)).settled ≠ some (.rejected ex)) := by
  have h := claim6_theorem (onFile (initialState ⟨none, none⟩) "*" 3)
    ⟨"file1", [4, 5], .failure ⟨"boom", none, none⟩, some ⟨"file1", 9⟩, 1⟩
    3 ⟨"boom", none, none⟩ rfl trivial (by decide) rfl rfl
  exact ⟨h.1, h.2.2.1, h.2.2.2⟩

/-- C7: a second `process` call on a consumed instance returns the state
untouched (no configuration merge, no decoder construction, the first
call's settlement intact) together with an immediately rejected promise
carrying the 500 `E_RUNTIME_EXCEPTION`; a first call flips the consumed
latch to true, and no decoder notification ever changes the latch. -/
theorem claim7_theorem :
    (∀ (s : MState) (cfg : Option Config) (events : List FormEvent),
      s.consumed = true →
      processCall s cfg events = (s, .alreadyConsumed alreadyConsumedExn)) ∧
    (∀ (s : MState) (cfg : Option Config) (events : List FormEvent),
      s.consumed = false →
      (processCall s cfg events).1.consumed = true ∧
      (processCall s cfg events).2 = .started) ∧
    (∀ (s : MState) (e : FormEvent), (step s e).consumed = s.consumed) := by
  refine ⟨fun s cfg events h => by simp [processCall, h],
    fun s cfg events h => ?_,
    fun s e => core_consumed (step_state s e).1⟩
  unfold processCall
  rw [if_neg (by simp [h])]
  refine ⟨?_, rfl⟩
  rw [core_consumed (run_state _ events).1]

/-- C7, witness: the exact double-call scenario on one instance. -/
theorem claim7_witness :
    processCall (processCall (initialState ⟨none, none⟩) none []).1 none [] =
      ((processCall (initialState ⟨none, none⟩) none []).1,
        .alreadyConsumed alreadyConsumedExn) ∧
    (processCall (initialState ⟨none, none⟩) none []).1.consumed = true ∧
    (step (initialState ⟨none, none⟩) (.close 5)).consumed =
      (initialState ⟨none, none⟩).consumed := by
  exact ⟨claim7_theorem.1 _ none [] rfl,
    (claim7_theorem.2.1 (initialState ⟨none, none⟩) none [] rfl).1,
    claim7_theorem.2.2 _ _⟩

/-- C8: a field with an empty key changes nothing; with a nonempty key the
guard runs on the value's length — on guard failure the form aborts and
the field is not recorded, on success the value is appended under its key
in arrival order, and an exception thrown while recording is handled
exactly as an abort with that exception. -/
theorem claim8_theorem :
    (∀ (s : MState) (v : String) (aerr : Option Exn),
      handleFieldStep s "" v aerr = s) ∧
    (∀ (s : MState) (k v : String) (aerr : Option Exn) (e : Exn),
      k ≠ "" → s.settled = none →
      (validateProcessedBytes s v.length).2 = some e →
      (handleFieldStep s k v aerr).settled = some (.rejected e) ∧
      (handleFieldStep s k v aerr).fields = s.fields) ∧
    (∀ (s : MState) (k v : String), k ≠ "" →
      (validateProcessedBytes s v.length).2 = none →
      (handleFieldStep s k v none).fields.valuesOf k =
        s.fields.valuesOf k ++ [v] ∧
      (handleFieldStep s k v none).settled = s.settled) ∧
    (∀ (s : MState) (k v : String) (ex : Exn), k ≠ "" →
      (validateProcessedBytes s v.length).2 = none →
      handleFieldStep s k v (some ex) =
        abortOnForm (validateProcessedBytes s v.length).1 ex) := by
  refine ⟨fun s v aerr => by simp [handleFieldStep], ?_, ?_, ?_⟩
  · intro s k v aerr e hk hst hve
    have he : e = entityTooLarge := by
      rcases validate_snd s v.length with h' | h'
      · rw [h'] at hve
        exact absurd hve (by simp)
      · rw [h'] at hve
        exact (Option.some.injEq _ _ ▸ hve : entityTooLarge = e).symm
    obtain ⟨_, vst, vfd, _⟩ := validate_state s v.length
    rcases hv : validateProcessedBytes s v.length with ⟨s2, e?⟩
    rw [hv] at hve vst vfd
    have he2 : e? = some e := hve
    subst he2
    have hb : handleFieldStep s k v aerr = abortOnForm s2 e := by
      unfold handleFieldStep
      simp [hk, hv]
    constructor
    · rw [hb]
      unfold abortOnForm onFormError
      rw [if_neg (by rw [he]; decide),
        rejectP_of_unsettled e (by rw [vst]; exact hst)]
    · rw [hb]
      show (abortOnForm s2 e).fields = s.fields
      unfold abortOnForm
      rw [(onFormError_state s2 e).2.2.1]
      exact vfd
  · intro s k v hk hve
    obtain ⟨_, vst, vfd, _⟩ := validate_state s v.length
    rcases hv : validateProcessedBytes s v.length with ⟨s2, e?⟩
    rw [hv] at hve vst vfd
    have he2 : e? = none := hve
    subst he2
    have hb : handleFieldStep s k v none =
        { s2 with fields := s2.fields.add k v } := by
      unfold handleFieldStep
      simp [hk, hv]
    rw [hb]
    constructor
    · show (s2.fields.add k v).valuesOf k = _
      rw [valuesOf_add_self, vfd]
    · exact vst
  · intro s k v ex hk hve
    rcases hv : validateProcessedBytes s v.length with ⟨s2, e?⟩
    rw [hv] at hve
    have he2 : e? = none := hve
    subst he2
    unfold handleFieldStep
    simp [hk, hv]

/-- C8, witness: empty key skipped; `tags=a` appended; an over-limit field
rejected without being recorded. -/
theorem claim8_witness :
    handleFieldStep (initialState ⟨none, none⟩) "" "zz" none =
      initialState ⟨none, none⟩ ∧
    (handleFieldStep (initialState ⟨none, none⟩) "tags" "a"
        none).fields.valuesOf "tags" =
      (initialState ⟨none, none⟩).fields.valuesOf "tags" ++ ["a"] ∧
    (handleFieldStep
        { initialState ⟨none, none⟩ with
          upperLimit := some 10, processedBytes := 8 }
        "note" "abc" none).settled =
      some (.rejected entityTooLarge) ∧
    (handleFieldStep
        { initialState ⟨none, none⟩ with
          upperLimit := some 10, processedBytes := 8 }
        "note" "abc" none).fields =
      ({ initialState ⟨none, none⟩ with
          upperLimit := some 10, processedBytes := 8 } : MState).fields := by
  have hb := claim8_theorem.2.1
    { initialState ⟨none, none⟩ with
      upperLimit := some 10, processedBytes := 8 }
    "note" "abc" none entityTooLarge (by decide) rfl rfl
  exact ⟨claim8_theorem.1 _ "zz" none,
    (claim8_theorem.2.2.1 (initialState ⟨none, none⟩) "tags" "a"
      (by decide) rfl).1,
    hb.1, hb.2⟩

/-- C9: a configured limit of the number 0 resolves to a zero ceiling and
an unparseable size string to a null one; under either, the guard returns
early — no bytes are ever added across a whole run — and a zero ceiling
makes every run behave identically to a run with no ceiling at all. -/
theorem claim9_theorem :
    (resolveLimit (some (.num 0)) = some 0 ∧
      resolveLimit (some (.str none)) = none) ∧
    (∀ (s : MState) (n : Nat),
      s.upperLimit = none ∨ s.upperLimit = some 0 →
      validateProcessedBytes s n = (s, none)) ∧
    (∀ (s : MState) (events : List FormEvent),
      s.upperLimit = none ∨ s.upperLimit = some 0 →
      (run s events).processedBytes = s.processedBytes) ∧
    (∀ (s : MState) (events : List FormEvent), s.upperLimit = none →
      run { s with upperLimit := some 0 } events =
        { run s events with upperLimit := some 0 }) := by
  exact ⟨⟨rfl, rfl⟩, fun s n h => validate_disabled n h,
    fun s events h => run_pb_disabled events h,
    fun s events h => run_limitTransport s events h⟩

/-- C9, witness: the disabled guard at concrete states and the zero-versus-
absent ceiling equivalence on a concrete run. -/
theorem claim9_witness :
    validateProcessedBytes (initialState ⟨none, none⟩) 100 =
      (initialState ⟨none, none⟩, none) ∧
    (run { initialState ⟨none, none⟩ with upperLimit := some 0 }
        [.field "a" "bb" none]).processedBytes =
      ({ initialState ⟨none, none⟩ with upperLimit := some 0 } :
        MState).processedBytes ∧
    run { initialState ⟨none, none⟩ with upperLimit := some 0 }
        [.field "a" "bb" none] =
      { run (initialState ⟨none, none⟩) [.field "a" "bb" none] with
        upperLimit := some 0 } := by
  exact ⟨claim9_theorem.2.1 _ 100 (Or.inl rfl),
    claim9_theorem.2.2.1 _ _ (Or.inr rfl),
    claim9_theorem.2.2.2 (initialState ⟨none, none⟩) _ rfl⟩

/-- C10: before `process` has ever run, the decoder form is uninitialized
and `abort(error)` throws (no promise is rejected, nothing settles); once
a first `process` call has constructed the form, `abort` emits the error
on it, i.e. behaves as the pipeline-failure trigger. -/
theorem claim10_theorem :
    (∀ (cfg : Config) (e : Exn),
      abortCall (initialState cfg) e = Except.error ()) ∧
    (∀ (s : MState) (cfg : Option Config) (events : List FormEvent) (e : Exn),
      s.consumed = false →
      abortCall ((processCall s cfg events).1) e =
        Except.ok (abortOnForm ((processCall s cfg events).1) e)) := by
  constructor
  · intro cfg e
    rfl
  · intro s cfg events e h
    unfold processCall
    rw [if_neg (by simp [h])]
    have hfc := core_formConstructions (run_state
      { s with consumed := true,
               config := mergeConfig s.config cfg,
               upperLimit := resolveLimit (mergeConfig s.config cfg).limit,
               formConstructions := s.formConstructions + 1 } events).1
    unfold abortCall
    rw [if_neg (by rw [hfc]; simp)]

/-- C10, witness: aborting a fresh instance throws; aborting after
`process` forwards to the form error listener. -/
theorem claim10_witness :
    abortCall (initialState ⟨none, none⟩) entityTooLarge =
      Except.error () ∧
    abortCall ((processCall (initialState ⟨none, none⟩) none []).1)
        (decoderError "x") =
      Except.ok (abortOnForm
        ((processCall (initialState ⟨none, none⟩) none []).1)
        (decoderError "x")) := by
  exact ⟨claim10_theorem.1 ⟨none, none⟩ entityTooLarge,
    claim10_theorem.2 (initialState ⟨none, none⟩) none [] (decoderError "x")
      rfl⟩

end Bodyparser
